import Mathlib

/-!
Verification of the terrain heightmap generation pipeline
(src/src/generate_heightmap.py) against its design specification.

The script reads a job configuration, builds a local azimuthal-equidistant
(AEQD) destination grid, reprojects a source elevation raster into a
samples x samples int16 grid via the external rasterio reproject collaborator,
and writes a raw little-endian binary plus a JSON metadata record.

Modelling conventions:
* Python floats are modelled as exact rationals; the int16 numpy array cells
  are integers reduced into the signed two-complement int16 range.
* Python exceptions are modelled with an explicit error type and Except:
  an exception aborts the run before any later statement executes.
* The external collaborators (rasterio open and reproject) are abstracted as
  an input: either unavailable, or a per-cell sampling outcome that may be
  valid elevation or no-coverage for each destination cell.
-/

namespace Heightmap

/-- Abort conditions of the script: the Python exceptions that can be raised
along the main path before the output files are written. -/
inductive PipelineError
  | zeroDivisionError
  | negativeDimensions
  | sourceRasterUnavailable
  deriving DecidableEq, Repr

/-- Job configuration after the float/int field coercions done by main:
origin lat/lon, grid size in meters and sample count, planar center offset. -/
structure Config where
  originLat : ℚ
  originLon : ℚ
  sizeM : ℚ
  samples : ℤ
  centerE : ℚ
  centerN : ℚ
  deriving DecidableEq, Repr

/-- Fixed output nodata sentinel of the script (nodata_out = -32768). -/
def nodataOut : ℤ := -32768

/-- Destination coordinate reference system parameters: the script builds a
proj4 string +proj=aeqd +lat_0=originLat +lon_0=originLon +datum=WGS84
+units=m; only the two origin parameters vary with the configuration. -/
structure DstCrs where
  lat0 : ℚ
  lon0 : ℚ
  deriving DecidableEq, Repr

/-- Destination CRS built from a configuration. -/
def dstCrsOf (cfg : Config) : DstCrs := ⟨cfg.originLat, cfg.originLon⟩

/-- An affine transform (a, b, c, d, e, f) in the row-vector convention used
by the affine library: (col, row) maps to (a*col + b*row + c, d*col + e*row + f). -/
structure AffineT where
  a : ℚ
  b : ℚ
  c : ℚ
  d : ℚ
  e : ℚ
  f : ℚ
  deriving DecidableEq, Repr

/-- Application of an affine transform to a (col, row) pair. -/
def AffineT.apply (t : AffineT) (col row : ℚ) : ℚ × ℚ :=
  (t.a * col + t.b * row + t.c, t.d * col + t.e * row + t.f)

/-- Pixel spacing size_m / (samples - 1) with Python division semantics:
a zero denominator raises ZeroDivisionError. -/
def pixelSpacing (cfg : Config) : Except PipelineError ℚ :=
  if cfg.samples - 1 = 0 then .error .zeroDivisionError
  else .ok (cfg.sizeM / ((cfg.samples : ℚ) - 1))

/-- Destination grid transform Affine(pixel, 0, x0, 0, -pixel, y0) with
x0 = center_e - size_m/2 and y0 = center_n + size_m/2. -/
def dstTransform (cfg : Config) : Except PipelineError AffineT :=
  (pixelSpacing cfg).map fun pixel =>
    let half := cfg.sizeM / 2
    let x0 := cfg.centerE - half
    let y0 := cfg.centerN + half
    { a := pixel, b := 0, c := x0, d := 0, e := -pixel, f := y0 }

/-- Reduction of an integer into the signed 16-bit range, as numpy int16
coercion does (two-complement wrap-around). -/
def toInt16 (v : ℤ) : ℤ := (v + 32768) % 65536 - 32768

/-- External rasterio capability: none when the source raster cannot be
opened or read; otherwise, for a destination transform, destination CRS and
destination cell (row, col), the nearest-neighbor reprojected source value,
or none when the cell is outside source coverage or hits source nodata.
Failure modes of the reproject call itself (for example its rejection of a
degenerate zero-sized destination dataset) are outside this model, so no
theorem below asserts that a run with a degenerate sample count succeeds. -/
def RasterCapability : Type :=
  Option (AffineT → DstCrs → ℕ → ℕ → Option ℤ)

/-- The filled destination array: np.full initialization to the nodata
sentinel, then reproject writes the sampled value (coerced to int16) into
covered cells and dst_nodata = -32768 into uncovered ones. -/
def reprojectFill (sample : ℕ → ℕ → Option ℤ) : ℕ → ℕ → ℤ :=
  fun r c =>
    match sample r c with
    | some v => toInt16 v
    | none => nodataOut

/-- Row-major list of all cells of the samples x samples grid. -/
def gridCells (s : ℕ) (cell : ℕ → ℕ → ℤ) : List ℤ :=
  (List.range s).flatMap fun r => (List.range s).map fun c => cell r c

/-- Little-endian two-byte encoding of an integer as int16, as produced by
astype to dtype little-endian i2 followed by tobytes. -/
def int16LEBytes (v : ℤ) : List ℕ :=
  let u := (v % 65536).toNat
  [u % 256, u / 256]

/-- Serialized binary: row-major (C order) concatenation of the little-endian
int16 encodings of all cells; no header. -/
def encodeGrid (s : ℕ) (cell : ℕ → ℕ → ℤ) : List ℕ :=
  (List.range s).flatMap fun r =>
    (List.range s).flatMap fun c => int16LEBytes (cell r c)

/-- Minimum of a list of integers, as ndarray.min over a nonempty array;
none on the empty array (the script guards with valid.size). -/
def listMin : List ℤ → Option ℤ
  | [] => none
  | v :: vs =>
    match listMin vs with
    | none => some v
    | some m => some (min v m)

/-- Maximum of a list of integers, as ndarray.max over a nonempty array;
none on the empty array (the script guards with valid.size). -/
def listMax : List ℤ → Option ℤ
  | [] => none
  | v :: vs =>
    match listMax vs with
    | none => some v
    | some m => some (max v m)

/-- The valid cells valid = dst[dst != nodata_out], in row-major order. -/
def validCells (s : ℕ) (cell : ℕ → ℕ → ℤ) : List ℤ :=
  (gridCells s cell).filter fun v => v ≠ nodataOut

/-- The metadata record written as the JSON sidecar. -/
structure Meta where
  originLat : ℚ
  originLon : ℚ
  sizeM : ℚ
  samples : ℤ
  centerE : ℚ
  centerN : ℚ
  dtype : String
  endianness : String
  layout : String
  nodata : ℤ
  min? : Option ℤ
  max? : Option ℤ
  deriving DecidableEq, Repr

/-- Metadata computed by the script from the configuration and filled grid. -/
def mkMeta (cfg : Config) (s : ℕ) (cell : ℕ → ℕ → ℤ) : Meta :=
  { originLat := cfg.originLat
    originLon := cfg.originLon
    sizeM := cfg.sizeM
    samples := cfg.samples
    centerE := cfg.centerE
    centerN := cfg.centerN
    dtype := "int16"
    endianness := "little"
    layout := "row-major"
    nodata := nodataOut
    min? := listMin (validCells s cell)
    max? := listMax (validCells s cell) }

/-- Result of a successful run: the in-memory filled grid, the bytes written
to the binary file, and the metadata record written to the sidecar. -/
structure RunOutput where
  grid : ℕ → ℕ → ℤ
  binBytes : List ℕ
  meta : Meta

/-- The main pipeline, following the statement order of the script: pixel
spacing (which can raise ZeroDivisionError), destination transform, array
allocation (negative dimensions raise), raster open (which can fail),
reproject, then encoding and the two file writes. -/
def runMain (cfg : Config) (raster : RasterCapability) :
    Except PipelineError RunOutput :=
  match dstTransform cfg with
  | .error e => .error e
  | .ok t =>
    if cfg.samples < 0 then .error .negativeDimensions
    else
      match raster with
      | none => .error .sourceRasterUnavailable
      | some reproject =>
        let s := cfg.samples.toNat
        let cell := reprojectFill (reproject t (dstCrsOf cfg))
        .ok { grid := cell
              binBytes := encodeGrid s cell
              meta := mkMeta cfg s cell }

/-- File writes performed by a run: on success the binary then the metadata
sidecar; an aborted run writes nothing. -/
inductive FileWrite
  | binFile (bytes : List ℕ)
  | metaFile (m : Meta)

/-- The write trace of a run result. -/
def writesOf : Except PipelineError RunOutput → List FileWrite
  | .ok out => [.binFile out.binBytes, .metaFile out.meta]
  | .error _ => []

/-- Whether a run completed without an abort. -/
def runSucceeds : Except PipelineError RunOutput → Bool
  | .ok _ => true
  | .error _ => false

/-- A raster capability that opens and reports no coverage anywhere. -/
def emptyRaster : RasterCapability :=
  some fun _ _ _ _ => none

/-- A sample configuration used in concrete witnesses. -/
def sampleCfg (samples : ℤ) : Config :=
  { originLat := 32, originLon := 35, sizeM := 200, samples := samples
    centerE := 0, centerN := 0 }

/-! The GeodeticProjector component. The script delegates the AEQD projection
to the external PROJ library through the destination CRS string; the
forward/inverse mappings themselves are not in the source tree. They are
modelled here from the specification of the GeodeticProjector component. -/

/-- Modelled from the spec: the spherical-Earth radius used by the projector,
approximately the WGS84 mean radius, in meters. Only its positivity matters
to the properties proved below. -/
noncomputable def earthRadius : ℝ := 6371008.8

/-- Two-argument arctangent: the angle t in (-pi, pi] with sin t
proportional to y and cos t proportional to x, realized as the complex
argument of x + y i; atan2 0 0 = 0. -/
noncomputable def atan2 (y x : ℝ) : ℝ := Complex.arg ⟨x, y⟩

/-- Modelled from the spec: cosine of the angular great-circle distance from
the origin (lat0, lon0) to the target (lat, lon), all in radians (spherical
law of cosines). -/
noncomputable def cosAngle (lat0 lon0 lat lon : ℝ) : ℝ :=
  Real.sin lat0 * Real.sin lat +
    Real.cos lat0 * Real.cos lat * Real.cos (lon - lon0)

/-- Modelled from the spec: the angular great-circle distance from the origin
to the target point, in radians. -/
noncomputable def centralAngle (lat0 lon0 lat lon : ℝ) : ℝ :=
  Real.arccos (cosAngle lat0 lon0 lat lon)

/-- Sine component (east) of the initial bearing from origin to target. -/
noncomputable def bearingSin (lat0 lon0 lat lon : ℝ) : ℝ :=
  Real.sin (lon - lon0) * Real.cos lat

/-- Cosine component (north) of the initial bearing from origin to target. -/
noncomputable def bearingCos (lat0 lon0 lat lon : ℝ) : ℝ :=
  Real.cos lat0 * Real.sin lat -
    Real.sin lat0 * Real.cos lat * Real.cos (lon - lon0)

/-- Modelled from the spec: the initial bearing from origin to target,
measured clockwise from north. -/
noncomputable def bearing (lat0 lon0 lat lon : ℝ) : ℝ :=
  atan2 (bearingSin lat0 lon0 lat lon) (bearingCos lat0 lon0 lat lon)

/-- Modelled from the spec: GeodeticProjector.forward in radians — planar
meters (x east, y north) with x = distance * sin(bearing) and
y = distance * cos(bearing). -/
noncomputable def forward (lat0 lon0 lat lon : ℝ) : ℝ × ℝ :=
  (earthRadius * centralAngle lat0 lon0 lat lon *
     Real.sin (bearing lat0 lon0 lat lon),
   earthRadius * centralAngle lat0 lon0 lat lon *
     Real.cos (bearing lat0 lon0 lat lon))

/-- Modelled from the spec: the angular distance recovered by the inverse
mapping, sqrt(x^2 + y^2) scaled to radians by the Earth radius. -/
noncomputable def invDist (x y : ℝ) : ℝ :=
  Real.sqrt (x ^ 2 + y ^ 2) / earthRadius

/-- Modelled from the spec: the latitude recovered by the direct geodesic
formula from the origin, with bearing atan2(x, y). -/
noncomputable def invLat (lat0 x y : ℝ) : ℝ :=
  Real.arcsin (Real.sin lat0 * Real.cos (invDist x y) +
    Real.cos lat0 * Real.sin (invDist x y) * Real.cos (atan2 x y))

/-- Modelled from the spec: the longitude recovered by the direct geodesic
formula from the origin, with bearing atan2(x, y). -/
noncomputable def invLon (lat0 lon0 x y : ℝ) : ℝ :=
  lon0 + atan2
    (Real.sin (atan2 x y) * Real.sin (invDist x y) * Real.cos lat0)
    (Real.cos (invDist x y) - Real.sin lat0 * Real.sin (invLat lat0 x y))

/-- Modelled from the spec: GeodeticProjector.inverse in radians — distance
sqrt(x^2 + y^2), bearing atan2(x, y), then the direct geodesic formula from
the origin on the sphere. -/
noncomputable def inverse (lat0 lon0 x y : ℝ) : ℝ × ℝ :=
  (invLat lat0 x y, invLon lat0 lon0 x y)

/-- Degrees to radians. -/
noncomputable def deg2rad (d : ℝ) : ℝ := d * (Real.pi / 180)

/-- Radians to degrees. -/
noncomputable def rad2deg (r : ℝ) : ℝ := r * (180 / Real.pi)

/-- Modelled from the spec: GeodeticProjector.forward on geodetic degrees. -/
noncomputable def forwardDeg (lat0 lon0 lat lon : ℝ) : ℝ × ℝ :=
  forward (deg2rad lat0) (deg2rad lon0) (deg2rad lat) (deg2rad lon)

/-- Modelled from the spec: GeodeticProjector.inverse back to degrees. -/
noncomputable def inverseDeg (lat0 lon0 x y : ℝ) : ℝ × ℝ :=
  (rad2deg (inverse (deg2rad lat0) (deg2rad lon0) x y).1,
   rad2deg (inverse (deg2rad lat0) (deg2rad lon0) x y).2)

lemma samples_sub_one_ne (cfg : Config) (h : 2 ≤ cfg.samples) :
    cfg.samples - 1 ≠ 0 := by omega

lemma samples_cast_sub_one_ne (cfg : Config) (h : 2 ≤ cfg.samples) :
    ((cfg.samples : ℚ) - 1) ≠ 0 := by
  have h2 : (2 : ℚ) ≤ (cfg.samples : ℚ) := by exact_mod_cast h
  intro hc
  nlinarith

lemma pixelSpacing_ok (cfg : Config) (h : 2 ≤ cfg.samples) :
    pixelSpacing cfg = Except.ok (cfg.sizeM / ((cfg.samples : ℚ) - 1)) := by
  simp [pixelSpacing, samples_sub_one_ne cfg h]

lemma dstTransform_ok (cfg : Config) (h : 2 ≤ cfg.samples) :
    dstTransform cfg = Except.ok
      { a := cfg.sizeM / ((cfg.samples : ℚ) - 1), b := 0
        c := cfg.centerE - cfg.sizeM / 2, d := 0
        e := -(cfg.sizeM / ((cfg.samples : ℚ) - 1))
        f := cfg.centerN + cfg.sizeM / 2 } := by
  simp [dstTransform, pixelSpacing_ok cfg h, Except.map]

/-- C2: for samples >= 2 the destination grid is exactly the affine transform
(pixel, 0, x0, 0, -pixel, y0) with x0 = center_e - size_m/2 and
y0 = center_n + size_m/2; cell (0, 0) maps to
(center_e - size_m/2, center_n + size_m/2) and cell
(samples-1, samples-1) maps to (center_e + size_m/2, center_n - size_m/2). -/
theorem c2_destination_grid (cfg : Config) (h : 2 ≤ cfg.samples) :
    ∃ t : AffineT,
      dstTransform cfg = Except.ok t ∧
      t = { a := cfg.sizeM / ((cfg.samples : ℚ) - 1), b := 0
            c := cfg.centerE - cfg.sizeM / 2, d := 0
            e := -(cfg.sizeM / ((cfg.samples : ℚ) - 1))
            f := cfg.centerN + cfg.sizeM / 2 } ∧
      t.apply 0 0 = (cfg.centerE - cfg.sizeM / 2, cfg.centerN + cfg.sizeM / 2) ∧
      t.apply ((cfg.samples : ℚ) - 1) ((cfg.samples : ℚ) - 1) =
        (cfg.centerE + cfg.sizeM / 2, cfg.centerN - cfg.sizeM / 2) := by
  have hne := samples_cast_sub_one_ne cfg h
  refine ⟨_, dstTransform_ok cfg h, rfl, ?_, ?_⟩
  · simp [AffineT.apply]
  · simp only [AffineT.apply, Prod.mk.injEq]
    constructor
    · field_simp
      ring
    · field_simp
      ring

/-- C2 witness: concrete instance with samples = 3, size 200, offset 0. -/
theorem c2_destination_grid_witness :
    ∃ t : AffineT,
      dstTransform (sampleCfg 3) = Except.ok t ∧
      t = { a := (sampleCfg 3).sizeM / (((sampleCfg 3).samples : ℚ) - 1), b := 0
            c := (sampleCfg 3).centerE - (sampleCfg 3).sizeM / 2, d := 0
            e := -((sampleCfg 3).sizeM / (((sampleCfg 3).samples : ℚ) - 1))
            f := (sampleCfg 3).centerN + (sampleCfg 3).sizeM / 2 } ∧
      t.apply 0 0 = ((sampleCfg 3).centerE - (sampleCfg 3).sizeM / 2,
        (sampleCfg 3).centerN + (sampleCfg 3).sizeM / 2) ∧
      t.apply (((sampleCfg 3).samples : ℚ) - 1) (((sampleCfg 3).samples : ℚ) - 1) =
        ((sampleCfg 3).centerE + (sampleCfg 3).sizeM / 2,
         (sampleCfg 3).centerN - (sampleCfg 3).sizeM / 2) :=
  c2_destination_grid (sampleCfg 3) (by decide)

/-- C8: for samples >= 2 the pixel spacing is computed without error and
satisfies pixel_spacing * (samples - 1) = size_m exactly. -/
theorem c8_pixel_spacing_spans (cfg : Config) (h : 2 ≤ cfg.samples) :
    ∃ p : ℚ, pixelSpacing cfg = Except.ok p ∧
      p * ((cfg.samples : ℚ) - 1) = cfg.sizeM := by
  refine ⟨_, pixelSpacing_ok cfg h, ?_⟩
  exact div_mul_cancel₀ cfg.sizeM (samples_cast_sub_one_ne cfg h)

/-- C8 witness: with size_m = 200 and samples = 3 the spacing is 100 and
100 * 2 = 200. -/
theorem c8_pixel_spacing_spans_witness :
    ∃ p : ℚ, pixelSpacing (sampleCfg 3) = Except.ok p ∧
      p * (((sampleCfg 3).samples : ℚ) - 1) = (sampleCfg 3).sizeM :=
  c8_pixel_spacing_spans (sampleCfg 3) (by decide)

/-- C10: the destination transform depends only on the grid spec and center
offset; two configurations agreeing on size_m, samples, east_m, north_m but
with arbitrary (possibly different) origins get identical transforms. -/
theorem c10_transform_origin_independent (cfg1 cfg2 : Config)
    (hs : cfg1.sizeM = cfg2.sizeM) (hn : cfg1.samples = cfg2.samples)
    (he : cfg1.centerE = cfg2.centerE) (hm : cfg1.centerN = cfg2.centerN) :
    dstTransform cfg1 = dstTransform cfg2 := by
  unfold dstTransform pixelSpacing
  rw [hs, hn, he, hm]

/-- C10 witness: two configurations differing only in origin latitude and
longitude produce the same transform. -/
theorem c10_transform_origin_independent_witness :
    dstTransform { originLat := 32, originLon := 35, sizeM := 200,
                   samples := 3, centerE := 5, centerN := -7 } =
    dstTransform { originLat := -11, originLon := 140, sizeM := 200,
                   samples := 3, centerE := 5, centerN := -7 } :=
  c10_transform_origin_independent _ _ rfl rfl rfl rfl

/-- C1 counterexample: at the concrete configuration with samples = 1
(hence samples < 2) the run aborts with the ZeroDivisionError raised by the
pixel-spacing division — that is, by dividing by zero — and not with an
InvalidGridSpec condition, which does not exist among the abort conditions
of the script. -/
theorem c1_counterexample :
    (sampleCfg 1).samples < 2 ∧
      runMain (sampleCfg 1) emptyRaster =
        Except.error PipelineError.zeroDivisionError := by
  constructor
  · decide
  · rfl

/-- C1 amended: the script performs no samples >= 2 validation and has no
InvalidGridSpec condition; for samples = 1 it aborts before any sampling —
the raster is arbitrary and never consulted — but via the ZeroDivisionError
raised by the pixel-spacing division, writing nothing. -/
theorem c1_amended_no_validation (cfg : Config) (raster : RasterCapability)
    (h1 : cfg.samples = 1) :
    runMain cfg raster = Except.error PipelineError.zeroDivisionError ∧
    writesOf (runMain cfg raster) = [] := by
  have hz : cfg.samples - 1 = 0 := by omega
  have hrun : runMain cfg raster = Except.error PipelineError.zeroDivisionError := by
    unfold runMain dstTransform pixelSpacing
    simp [hz, Except.map]
  exact ⟨hrun, by rw [hrun]; rfl⟩

/-- C1 amended witness: the concrete configuration with samples = 1. -/
theorem c1_amended_no_validation_witness :
    (sampleCfg 1).samples = 1 ∧
    (runMain (sampleCfg 1) emptyRaster =
        Except.error PipelineError.zeroDivisionError ∧
      writesOf (runMain (sampleCfg 1) emptyRaster) = []) :=
  ⟨rfl, c1_amended_no_validation (sampleCfg 1) emptyRaster rfl⟩

/-- C6: when the source raster cannot be opened the run aborts: it never
returns a successful output, writes neither the binary nor the metadata
file (so the encoder result is never emitted), and for any well-formed
sample count the reported condition is SourceRasterUnavailable. -/
theorem c6_fatal_aborts_atomically (cfg : Config) :
    (∀ out : RunOutput, runMain cfg none ≠ Except.ok out) ∧
    writesOf (runMain cfg none) = [] ∧
    (2 ≤ cfg.samples →
      runMain cfg none = Except.error PipelineError.sourceRasterUnavailable) := by
  have hcases : ∃ e : PipelineError, runMain cfg none = Except.error e := by
    unfold runMain
    cases htr : dstTransform cfg with
    | error e => exact ⟨e, rfl⟩
    | ok t =>
      by_cases hneg : cfg.samples < 0
      · exact ⟨PipelineError.negativeDimensions, by simp [hneg]⟩
      · exact ⟨PipelineError.sourceRasterUnavailable, by simp [hneg]⟩
  obtain ⟨e, he⟩ := hcases
  refine ⟨?_, ?_, ?_⟩
  · intro out hout
    rw [he] at hout
    exact Except.noConfusion hout
  · rw [he]
    rfl
  · intro h2
    have hneg : ¬(cfg.samples < 0) := by omega
    unfold runMain
    rw [dstTransform_ok cfg h2]
    simp [hneg]

/-- C6 witness: concrete configuration with the raster unavailable. -/
theorem c6_fatal_aborts_atomically_witness :
    (∀ out : RunOutput, runMain (sampleCfg 3) none ≠ Except.ok out) ∧
    writesOf (runMain (sampleCfg 3) none) = [] ∧
    (2 ≤ (sampleCfg 3).samples →
      runMain (sampleCfg 3) none =
        Except.error PipelineError.sourceRasterUnavailable) :=
  c6_fatal_aborts_atomically (sampleCfg 3)

/-- C7: the pipeline is deterministic — equal configurations and equal
raster contents give equal run results (bytes and metadata alike), and the
encoder and metadata computation are pure functions of the sample grid. -/
theorem c7_deterministic (cfg1 cfg2 : Config) (r1 r2 : RasterCapability)
    (hc : cfg1 = cfg2) (hr : r1 = r2) :
    runMain cfg1 r1 = runMain cfg2 r2 ∧
    (∀ (s : ℕ) (cell1 cell2 : ℕ → ℕ → ℤ), cell1 = cell2 →
      encodeGrid s cell1 = encodeGrid s cell2 ∧
      mkMeta cfg1 s cell1 = mkMeta cfg2 s cell2) := by
  subst hc
  subst hr
  exact ⟨rfl, fun s cell1 cell2 hcell => by rw [hcell]; exact ⟨rfl, rfl⟩⟩

lemma flatMap_range_length {α : Type} (g : ℕ → List α) (k n : ℕ)
    (hk : ∀ i, (g i).length = k) :
    ((List.range n).flatMap g).length = n * k := by
  induction n with
  | zero => simp
  | succ n ih =>
    rw [List.range_succ, List.flatMap_append, List.length_append, ih,
      List.flatMap_singleton, hk n]
    ring

lemma flatMap_range_drop {α : Type} (g : ℕ → List α) (k n i : ℕ)
    (hk : ∀ j, (g j).length = k) (h : i < n) :
    ∃ rest : List α, ((List.range n).flatMap g).drop (k * i) = g i ++ rest := by
  have hsplit : List.range n = List.range i ++ (List.range n).drop i := by
    have ht : (List.range n).take i = List.range i := by
      rw [List.take_range]
      congr 1
      omega
    rw [← ht]
    exact (List.take_append_drop i (List.range n)).symm
  have hlen : ((List.range i).flatMap g).length = k * i := by
    rw [flatMap_range_length g k i hk]
    ring
  have hdrop : ((List.range n).flatMap g).drop (k * i) =
      ((List.range n).drop i).flatMap g := by
    conv =>
      lhs
      rw [hsplit]
    rw [List.flatMap_append, ← hlen, List.drop_left]
  have hlt : i < (List.range n).length := by
    rw [List.length_range]
    exact h
  have hcons : (List.range n).drop i = i :: (List.range n).drop (i + 1) := by
    rw [List.drop_eq_getElem_cons hlt, List.getElem_range]
  refine ⟨((List.range n).drop (i + 1)).flatMap g, ?_⟩
  rw [hdrop, hcons, List.flatMap_cons]

lemma int16LEBytes_length (v : ℤ) : (int16LEBytes v).length = 2 := rfl

lemma encodeGrid_row_length (s : ℕ) (cell : ℕ → ℕ → ℤ) (r : ℕ) :
    ((List.range s).flatMap fun c => int16LEBytes (cell r c)).length = s * 2 :=
  flatMap_range_length _ 2 s fun _ => int16LEBytes_length _

lemma encodeGrid_length (s : ℕ) (cell : ℕ → ℕ → ℤ) :
    (encodeGrid s cell).length = s * s * 2 := by
  unfold encodeGrid
  rw [flatMap_range_length _ (s * 2) s fun r => encodeGrid_row_length s cell r]
  ring

lemma encodeGrid_extract (s : ℕ) (cell : ℕ → ℕ → ℤ) (r c : ℕ)
    (hr : r < s) (hc : c < s) :
    ((encodeGrid s cell).drop (2 * (r * s + c))).take 2 =
      int16LEBytes (cell r c) := by
  obtain ⟨rest, hrow⟩ := flatMap_range_drop
    (fun r => (List.range s).flatMap fun c => int16LEBytes (cell r c))
    (s * 2) s r (fun j => encodeGrid_row_length s cell j) hr
  obtain ⟨rest2, hcell⟩ := flatMap_range_drop
    (fun c => int16LEBytes (cell r c)) 2 s c
    (fun j => int16LEBytes_length _) hc
  have hoff : 2 * (r * s + c) = s * 2 * r + 2 * c := by ring
  have hle : 2 * c ≤ ((List.range s).flatMap
      fun c => int16LEBytes (cell r c)).length := by
    rw [encodeGrid_row_length]
    omega
  calc ((encodeGrid s cell).drop (2 * (r * s + c))).take 2
      = (((encodeGrid s cell).drop (s * 2 * r)).drop (2 * c)).take 2 := by
        rw [List.drop_drop, hoff]
    _ = (int16LEBytes (cell r c) ++ (rest2 ++ rest)).take 2 := by
        rw [show (encodeGrid s cell).drop (s * 2 * r) =
          ((List.range s).flatMap fun c => int16LEBytes (cell r c)) ++ rest
          from hrow, List.drop_append_of_le_length hle, hcell,
          List.append_assoc]
    _ = int16LEBytes (cell r c) := by
        rw [← int16LEBytes_length (cell r c), List.take_left]

/-- C3: the serialized binary is exactly samples * samples * 2 bytes; for
every cell (r, c) the two bytes at offset 2*(r*samples + c) — in particular
offset 0 for cell (0,0), i.e. no header precedes the data — are the
little-endian two-byte encoding of that int16 cell, in row-major order. -/
theorem c3_binary_layout (s : ℕ) (cell : ℕ → ℕ → ℤ) :
    (encodeGrid s cell).length = s * s * 2 ∧
    ∀ r c, r < s → c < s →
      ((encodeGrid s cell).drop (2 * (r * s + c))).take 2 =
        int16LEBytes (cell r c) :=
  ⟨encodeGrid_length s cell,
   fun r c hr hc => encodeGrid_extract s cell r c hr hc⟩

/-- C3 witness: concrete 2 x 2 grid; the byte pair for cell (1, 1) sits at
offset 6 and the total length is 8. -/
theorem c3_binary_layout_witness :
    (encodeGrid 2 (fun r c => (r * 2 + c : ℤ))).length = 2 * 2 * 2 ∧
    ((encodeGrid 2 (fun r c => (r * 2 + c : ℤ))).drop (2 * (1 * 2 + 1))).take 2 =
      int16LEBytes 3 :=
  ⟨(c3_binary_layout 2 (fun r c => (r * 2 + c : ℤ))).1,
   (c3_binary_layout 2 (fun r c => (r * 2 + c : ℤ))).2 1 1 (by decide) (by decide)⟩

lemma listMin_eq_none_iff (l : List ℤ) : listMin l = none ↔ l = [] := by
  cases l with
  | nil => simp [listMin]
  | cons v vs =>
    simp only [listMin]
    cases listMin vs <;> simp

lemma listMax_eq_none_iff (l : List ℤ) : listMax l = none ↔ l = [] := by
  cases l with
  | nil => simp [listMax]
  | cons v vs =>
    simp only [listMax]
    cases listMax vs <;> simp

lemma listMin_mem {l : List ℤ} {m : ℤ} (h : listMin l = some m) : m ∈ l := by
  induction l generalizing m with
  | nil => exact absurd h (by simp [listMin])
  | cons v vs ih =>
    rw [listMin] at h
    cases hvs : listMin vs with
    | none =>
      rw [hvs] at h
      simp only [Option.some.injEq] at h
      rw [← h]
      exact List.mem_cons_self v vs
    | some m' =>
      rw [hvs] at h
      simp only [Option.some.injEq] at h
      rcases min_choice v m' with hm | hm
      · rw [← h, hm]
        exact List.mem_cons_self v vs
      · rw [← h, hm]
        exact List.mem_cons_of_mem v (ih hvs)

lemma listMax_mem {l : List ℤ} {m : ℤ} (h : listMax l = some m) : m ∈ l := by
  induction l generalizing m with
  | nil => exact absurd h (by simp [listMax])
  | cons v vs ih =>
    rw [listMax] at h
    cases hvs : listMax vs with
    | none =>
      rw [hvs] at h
      simp only [Option.some.injEq] at h
      rw [← h]
      exact List.mem_cons_self v vs
    | some m' =>
      rw [hvs] at h
      simp only [Option.some.injEq] at h
      rcases max_choice v m' with hm | hm
      · rw [← h, hm]
        exact List.mem_cons_self v vs
      · rw [← h, hm]
        exact List.mem_cons_of_mem v (ih hvs)

lemma listMin_le {l : List ℤ} {m : ℤ} (h : listMin l = some m) :
    ∀ x ∈ l, m ≤ x := by
  induction l generalizing m with
  | nil => intro x hx; exact absurd hx (by simp)
  | cons v vs ih =>
    rw [listMin] at h
    intro x hx
    rcases List.mem_cons.mp hx with hxv | hxvs
    · cases hvs : listMin vs with
      | none =>
        rw [hvs] at h
        simp only [Option.some.injEq] at h
        rw [← h, hxv]
      | some m' =>
        rw [hvs] at h
        simp only [Option.some.injEq] at h
        rw [← h, hxv]
        exact min_le_left v m'
    · cases hvs : listMin vs with
      | none =>
        rw [listMin_eq_none_iff] at hvs
        rw [hvs] at hxvs
        exact absurd hxvs (by simp)
      | some m' =>
        rw [hvs] at h
        simp only [Option.some.injEq] at h
        calc m = min v m' := h.symm
          _ ≤ m' := min_le_right v m'
          _ ≤ x := ih hvs x hxvs

lemma listMax_ge {l : List ℤ} {m : ℤ} (h : listMax l = some m) :
    ∀ x ∈ l, x ≤ m := by
  induction l generalizing m with
  | nil => intro x hx; exact absurd hx (by simp)
  | cons v vs ih =>
    rw [listMax] at h
    intro x hx
    rcases List.mem_cons.mp hx with hxv | hxvs
    · cases hvs : listMax vs with
      | none =>
        rw [hvs] at h
        simp only [Option.some.injEq] at h
        rw [← h, hxv]
      | some m' =>
        rw [hvs] at h
        simp only [Option.some.injEq] at h
        rw [← h, hxv]
        exact le_max_left v m'
    · cases hvs : listMax vs with
      | none =>
        rw [listMax_eq_none_iff] at hvs
        rw [hvs] at hxvs
        exact absurd hxvs (by simp)
      | some m' =>
        rw [hvs] at h
        simp only [Option.some.injEq] at h
        calc x ≤ m' := ih hvs x hxvs
          _ ≤ max v m' := le_max_right v m'
          _ = m := h

lemma validCells_eq_nil_iff (s : ℕ) (cell : ℕ → ℕ → ℤ) :
    validCells s cell = [] ↔ ∀ v ∈ gridCells s cell, v = nodataOut := by
  unfold validCells
  rw [List.filter_eq_nil_iff]
  constructor
  · intro h v hv
    have := h v hv
    simpa using this
  · intro h v hv
    simp [h v hv]

lemma mem_validCells (s : ℕ) (cell : ℕ → ℕ → ℤ) (v : ℤ) :
    v ∈ validCells s cell ↔ v ∈ gridCells s cell ∧ v ≠ nodataOut := by
  unfold validCells
  rw [List.mem_filter]
  simp

/-- C4: metadata min and max are computed over the cells different from the
nodata sentinel -32768: both are none exactly when every cell is nodata
(metadata is still produced in that case), and when some, min (resp. max)
is a non-nodata cell value below (resp. above) every non-nodata cell. -/
theorem c4_min_max_over_valid (cfg : Config) (s : ℕ) (cell : ℕ → ℕ → ℤ) :
    ((mkMeta cfg s cell).min? = none ↔ ∀ v ∈ gridCells s cell, v = nodataOut) ∧
    ((mkMeta cfg s cell).max? = none ↔ ∀ v ∈ gridCells s cell, v = nodataOut) ∧
    (∀ m, (mkMeta cfg s cell).min? = some m →
      m ∈ gridCells s cell ∧ m ≠ nodataOut ∧
      ∀ v ∈ gridCells s cell, v ≠ nodataOut → m ≤ v) ∧
    (∀ m, (mkMeta cfg s cell).max? = some m →
      m ∈ gridCells s cell ∧ m ≠ nodataOut ∧
      ∀ v ∈ gridCells s cell, v ≠ nodataOut → v ≤ m) := by
  refine ⟨?_, ?_, ?_, ?_⟩
  · rw [show (mkMeta cfg s cell).min? = listMin (validCells s cell) from rfl,
      listMin_eq_none_iff]
    exact validCells_eq_nil_iff s cell
  · rw [show (mkMeta cfg s cell).max? = listMax (validCells s cell) from rfl,
      listMax_eq_none_iff]
    exact validCells_eq_nil_iff s cell
  · intro m hm
    have hm' : listMin (validCells s cell) = some m := hm
    have hmem := (mem_validCells s cell m).mp (listMin_mem hm')
    refine ⟨hmem.1, hmem.2, fun v hv hnv => ?_⟩
    exact listMin_le hm' v ((mem_validCells s cell v).mpr ⟨hv, hnv⟩)
  · intro m hm
    have hm' : listMax (validCells s cell) = some m := hm
    have hmem := (mem_validCells s cell m).mp (listMax_mem hm')
    refine ⟨hmem.1, hmem.2, fun v hv hnv => ?_⟩
    exact listMax_ge hm' v ((mem_validCells s cell v).mpr ⟨hv, hnv⟩)

/-- C4 witness: on an all-nodata 2 x 2 grid min is none; on a constant
grid of fives min is some 5, which is a cell of the grid. -/
theorem c4_min_max_over_valid_witness :
    (mkMeta (sampleCfg 2) 2 (fun _ _ => nodataOut)).min? = none ∧
    5 ∈ gridCells 1 (fun _ _ => (5 : ℤ)) :=
  ⟨(c4_min_max_over_valid (sampleCfg 2) 2 (fun _ _ => nodataOut)).1.mpr
    (by decide),
   ((c4_min_max_over_valid (sampleCfg 2) 1 (fun _ _ => (5 : ℤ))).2.2.1 5
    (by decide)).1⟩

lemma flatten_replicate_append {α : Type} (n : ℕ) (L : List α) :
    (List.replicate n L).flatten ++ L = L ++ (List.replicate n L).flatten := by
  induction n with
  | zero => simp
  | succ n ih =>
    rw [List.replicate_succ, List.flatten_cons, List.append_assoc, ih]

lemma flatMap_range_const {α : Type} (n : ℕ) (L : List α) :
    ((List.range n).flatMap fun _ => L) = (List.replicate n L).flatten := by
  induction n with
  | zero => rfl
  | succ n ih =>
    rw [List.range_succ, List.flatMap_append, ih, List.flatMap_singleton,
      flatten_replicate_append, ← List.flatten_cons, ← List.replicate_succ]

lemma flatten_replicate_flatten {α : Type} (m n : ℕ) (L : List α) :
    (List.replicate m (List.replicate n L).flatten).flatten =
      (List.replicate (m * n) L).flatten := by
  induction m with
  | zero => simp
  | succ m ih =>
    rw [List.replicate_succ, List.flatten_cons, ih,
      show (m + 1) * n = n + m * n by ring, List.replicate_add,
      List.flatten_append]

lemma encodeGrid_const (s : ℕ) (v : ℤ) :
    encodeGrid s (fun _ _ => v) =
      (List.replicate (s * s) (int16LEBytes v)).flatten := by
  unfold encodeGrid
  calc ((List.range s).flatMap fun _ =>
          (List.range s).flatMap fun _ => int16LEBytes v)
      = ((List.range s).flatMap fun _ =>
          (List.replicate s (int16LEBytes v)).flatten) := by
        simp only [flatMap_range_const]
    _ = (List.replicate s
          (List.replicate s (int16LEBytes v)).flatten).flatten := by
        rw [flatMap_range_const]
    _ = (List.replicate (s * s) (int16LEBytes v)).flatten :=
        flatten_replicate_flatten s s (int16LEBytes v)

/-- C5: when the external resampler reports no coverage for any destination
cell, the run still succeeds, every cell of the produced grid is the
sentinel -32768 (the value the array is initialized with), the binary is
samples*samples repetitions of the two-byte sentinel encoding, and
metadata min and max are both none. -/
theorem c5_all_nodata_propagation (cfg : Config)
    (sample : AffineT → DstCrs → ℕ → ℕ → Option ℤ) (h2 : 2 ≤ cfg.samples)
    (hnone : ∀ t crs r c, sample t crs r c = none) :
    ∃ out : RunOutput,
      runMain cfg (some sample) = Except.ok out ∧
      (∀ r c, out.grid r c = nodataOut) ∧
      out.binBytes = (List.replicate (cfg.samples.toNat * cfg.samples.toNat)
        (int16LEBytes nodataOut)).flatten ∧
      out.meta.min? = none ∧
      out.meta.max? = none := by
  have hneg : ¬(cfg.samples < 0) := by omega
  have hfill : ∀ t : AffineT,
      reprojectFill (sample t (dstCrsOf cfg)) = fun _ _ => nodataOut := by
    intro t
    funext r c
    unfold reprojectFill
    rw [hnone t (dstCrsOf cfg) r c]
  have hrun : runMain cfg (some sample) = Except.ok
      { grid := fun _ _ => nodataOut
        binBytes := encodeGrid cfg.samples.toNat (fun _ _ => nodataOut)
        meta := mkMeta cfg cfg.samples.toNat (fun _ _ => nodataOut) } := by
    unfold runMain
    rw [dstTransform_ok cfg h2]
    simp only [hneg, if_false, hfill]
  refine ⟨_, hrun, fun r c => rfl, ?_, ?_, ?_⟩
  · exact encodeGrid_const cfg.samples.toNat nodataOut
  · rw [show (mkMeta cfg cfg.samples.toNat fun _ _ => nodataOut).min? =
      listMin (validCells cfg.samples.toNat fun _ _ => nodataOut) from rfl,
      listMin_eq_none_iff, validCells_eq_nil_iff]
    intro v hv
    unfold gridCells at hv
    simp only [List.mem_flatMap, List.mem_map] at hv
    obtain ⟨r, _, c, _, hvc⟩ := hv
    exact hvc.symm
  · rw [show (mkMeta cfg cfg.samples.toNat fun _ _ => nodataOut).max? =
      listMax (validCells cfg.samples.toNat fun _ _ => nodataOut) from rfl,
      listMax_eq_none_iff, validCells_eq_nil_iff]
    intro v hv
    unfold gridCells at hv
    simp only [List.mem_flatMap, List.mem_map] at hv
    obtain ⟨r, _, c, _, hvc⟩ := hv
    exact hvc.symm

/-- C5 witness: a 3 x 3 run entirely outside coverage. -/
theorem c5_all_nodata_propagation_witness :
    ∃ out : RunOutput,
      runMain (sampleCfg 3) (some fun _ _ _ _ => none) = Except.ok out ∧
      (∀ r c, out.grid r c = nodataOut) ∧
      out.binBytes = (List.replicate
        ((sampleCfg 3).samples.toNat * (sampleCfg 3).samples.toNat)
        (int16LEBytes nodataOut)).flatten ∧
      out.meta.min? = none ∧
      out.meta.max? = none :=
  c5_all_nodata_propagation (sampleCfg 3) (fun _ _ _ _ => none) (by decide)
    (fun _ _ _ _ => rfl)

/-- C7 witness: concrete repeated run. -/
theorem c7_deterministic_witness :
    runMain (sampleCfg 3) emptyRaster = runMain (sampleCfg 3) emptyRaster ∧
    (∀ (s : ℕ) (cell1 cell2 : ℕ → ℕ → ℤ), cell1 = cell2 →
      encodeGrid s cell1 = encodeGrid s cell2 ∧
      mkMeta (sampleCfg 3) s cell1 = mkMeta (sampleCfg 3) s cell2) :=
  c7_deterministic (sampleCfg 3) (sampleCfg 3) emptyRaster emptyRaster rfl rfl

lemma earthRadius_pos : (0 : ℝ) < earthRadius := by
  norm_num [earthRadius]

lemma bearing_sq_identity (lat0 lon0 lat lon : ℝ) :
    bearingSin lat0 lon0 lat lon ^ 2 + bearingCos lat0 lon0 lat lon ^ 2 =
      1 - cosAngle lat0 lon0 lat lon ^ 2 := by
  unfold bearingSin bearingCos cosAngle
  have hP0 := Real.sin_sq_add_cos_sq lat0
  have hP1 := Real.sin_sq_add_cos_sq lat
  have hP2 := Real.sin_sq_add_cos_sq (lon - lon0)
  linear_combination (Real.sin lat ^ 2 +
    Real.cos lat ^ 2 * Real.cos (lon - lon0) ^ 2) * hP0 + hP1 +
    Real.cos lat ^ 2 * hP2

lemma cosAngle_neg_one_le (lat0 lon0 lat lon : ℝ) :
    -1 ≤ cosAngle lat0 lon0 lat lon := by
  have h := bearing_sq_identity lat0 lon0 lat lon
  nlinarith [sq_nonneg (bearingSin lat0 lon0 lat lon),
    sq_nonneg (bearingCos lat0 lon0 lat lon),
    sq_nonneg (1 + cosAngle lat0 lon0 lat lon)]

lemma cosAngle_le_one (lat0 lon0 lat lon : ℝ) :
    cosAngle lat0 lon0 lat lon ≤ 1 := by
  have h := bearing_sq_identity lat0 lon0 lat lon
  nlinarith [sq_nonneg (bearingSin lat0 lon0 lat lon),
    sq_nonneg (bearingCos lat0 lon0 lat lon),
    sq_nonneg (1 - cosAngle lat0 lon0 lat lon)]

lemma cos_centralAngle (lat0 lon0 lat lon : ℝ) :
    Real.cos (centralAngle lat0 lon0 lat lon) = cosAngle lat0 lon0 lat lon := by
  unfold centralAngle
  exact Real.cos_arccos (cosAngle_neg_one_le lat0 lon0 lat lon)
    (cosAngle_le_one lat0 lon0 lat lon)

lemma sin_centralAngle (lat0 lon0 lat lon : ℝ) :
    Real.sin (centralAngle lat0 lon0 lat lon) =
      Real.sqrt (bearingSin lat0 lon0 lat lon ^ 2 +
        bearingCos lat0 lon0 lat lon ^ 2) := by
  unfold centralAngle
  rw [Real.sin_arccos, ← bearing_sq_identity]

lemma abs_bearing_complex (lat0 lon0 lat lon : ℝ) :
    Complex.abs ⟨bearingCos lat0 lon0 lat lon, bearingSin lat0 lon0 lat lon⟩ =
      Real.sin (centralAngle lat0 lon0 lat lon) := by
  rw [Complex.abs_apply, Complex.normSq_mk, sin_centralAngle]
  congr 1
  ring

lemma sin_central_mul_cos_bearing (lat0 lon0 lat lon : ℝ) :
    Real.sin (centralAngle lat0 lon0 lat lon) *
        Real.cos (bearing lat0 lon0 lat lon) =
      bearingCos lat0 lon0 lat lon ∧
    Real.sin (centralAngle lat0 lon0 lat lon) *
        Real.sin (bearing lat0 lon0 lat lon) =
      bearingSin lat0 lon0 lat lon := by
  by_cases hz : (⟨bearingCos lat0 lon0 lat lon,
      bearingSin lat0 lon0 lat lon⟩ : ℂ) = 0
  · have hb : bearingCos lat0 lon0 lat lon = 0 := congrArg Complex.re hz
    have ha : bearingSin lat0 lon0 lat lon = 0 := congrArg Complex.im hz
    have hs : Real.sin (centralAngle lat0 lon0 lat lon) = 0 := by
      rw [sin_centralAngle, ha, hb]
      simp
    rw [hs, ha, hb]
    constructor <;> ring
  · have habs := abs_bearing_complex lat0 lon0 lat lon
    have hpos : 0 < Complex.abs ⟨bearingCos lat0 lon0 lat lon,
        bearingSin lat0 lon0 lat lon⟩ := Complex.abs.pos hz
    have hcos := Complex.cos_arg hz
    have hsin := Complex.sin_arg (⟨bearingCos lat0 lon0 lat lon,
        bearingSin lat0 lon0 lat lon⟩ : ℂ)
    have hbrg : bearing lat0 lon0 lat lon = Complex.arg
        ⟨bearingCos lat0 lon0 lat lon, bearingSin lat0 lon0 lat lon⟩ := rfl
    constructor
    · rw [hbrg, hcos, ← habs]
      field_simp
    · rw [hbrg, hsin, ← habs]
      field_simp

lemma arg_mk_cos_sin (r t : ℝ) (hr : 0 < r)
    (ht : t ∈ Set.Ioc (-Real.pi) Real.pi) :
    Complex.arg ⟨r * Real.cos t, r * Real.sin t⟩ = t := by
  have hmk : (⟨r * Real.cos t, r * Real.sin t⟩ : ℂ) =
      (r : ℂ) * (Complex.cos t + Complex.sin t * Complex.I) := by
    rw [Complex.mk_eq_add_mul_I, ← Complex.ofReal_cos, ← Complex.ofReal_sin]
    push_cast
    ring
  rw [hmk, Complex.arg_real_mul _ hr, Complex.arg_cos_add_sin_mul_I ht]

lemma cosAngle_self (lat0 lon0 : ℝ) : cosAngle lat0 lon0 lat0 lon0 = 1 := by
  unfold cosAngle
  rw [sub_self, Real.cos_zero]
  linear_combination Real.sin_sq_add_cos_sq lat0

lemma forward_origin (lat0 lon0 : ℝ) : forward lat0 lon0 lat0 lon0 = (0, 0) := by
  unfold forward
  have hδ : centralAngle lat0 lon0 lat0 lon0 = 0 := by
    unfold centralAngle
    rw [cosAngle_self, Real.arccos_one]
  rw [hδ]
  simp

lemma sin_lat_identity (lat0 lon0 lat lon : ℝ) :
    Real.sin lat0 * cosAngle lat0 lon0 lat lon +
      Real.cos lat0 * bearingCos lat0 lon0 lat lon = Real.sin lat := by
  unfold cosAngle bearingCos
  linear_combination Real.sin lat * Real.sin_sq_add_cos_sq lat0

lemma inverse_forward (lat0 lon0 lat lon : ℝ)
    (h0 : |lat0| < Real.pi / 2) (h1 : |lat| < Real.pi / 2)
    (hd : lon - lon0 ∈ Set.Ioc (-Real.pi) Real.pi) :
    inverse lat0 lon0 (forward lat0 lon0 lat lon).1
      (forward lat0 lon0 lat lon).2 = (lat, lon) := by
  have hR := earthRadius_pos
  have hδ0 : 0 ≤ centralAngle lat0 lon0 lat lon := Real.arccos_nonneg _
  have hc0 : 0 < Real.cos lat0 :=
    Real.cos_pos_of_mem_Ioo ⟨(abs_lt.mp h0).1, (abs_lt.mp h0).2⟩
  have hc1 : 0 < Real.cos lat :=
    Real.cos_pos_of_mem_Ioo ⟨(abs_lt.mp h1).1, (abs_lt.mp h1).2⟩
  have hx : (forward lat0 lon0 lat lon).1 =
      earthRadius * centralAngle lat0 lon0 lat lon *
        Real.sin (bearing lat0 lon0 lat lon) := rfl
  have hy : (forward lat0 lon0 lat lon).2 =
      earthRadius * centralAngle lat0 lon0 lat lon *
        Real.cos (bearing lat0 lon0 lat lon) := rfl
  have hsq : (forward lat0 lon0 lat lon).1 ^ 2 +
      (forward lat0 lon0 lat lon).2 ^ 2 =
      (earthRadius * centralAngle lat0 lon0 lat lon) ^ 2 := by
    rw [hx, hy]
    linear_combination (earthRadius * centralAngle lat0 lon0 lat lon) ^ 2 *
      Real.sin_sq_add_cos_sq (bearing lat0 lon0 lat lon)
  have hdist : Real.sqrt ((forward lat0 lon0 lat lon).1 ^ 2 +
      (forward lat0 lon0 lat lon).2 ^ 2) / earthRadius =
      centralAngle lat0 lon0 lat lon := by
    rw [hsq, Real.sqrt_sq (mul_nonneg hR.le hδ0)]
    field_simp
  -- products with the recovered bearing
  have hprod := sin_central_mul_cos_bearing lat0 lon0 lat lon
  have hsc : Real.sin (centralAngle lat0 lon0 lat lon) *
      Real.cos (atan2 (forward lat0 lon0 lat lon).1
        (forward lat0 lon0 lat lon).2) = bearingCos lat0 lon0 lat lon := by
    by_cases hδz : centralAngle lat0 lon0 lat lon = 0
    · have hs0 : Real.sin (centralAngle lat0 lon0 lat lon) = 0 := by
        rw [hδz, Real.sin_zero]
      have hab : bearingSin lat0 lon0 lat lon ^ 2 +
          bearingCos lat0 lon0 lat lon ^ 2 = 0 := by
        have := sin_centralAngle lat0 lon0 lat lon
        rw [hs0] at this
        have hnn : 0 ≤ bearingSin lat0 lon0 lat lon ^ 2 +
            bearingCos lat0 lon0 lat lon ^ 2 := by positivity
        nlinarith [Real.sq_sqrt hnn]
      have hb : bearingCos lat0 lon0 lat lon = 0 := by
        nlinarith [sq_nonneg (bearingSin lat0 lon0 lat lon),
          sq_nonneg (bearingCos lat0 lon0 lat lon)]
      rw [hs0, hb]
      ring
    · have hδpos : 0 < centralAngle lat0 lon0 lat lon :=
        lt_of_le_of_ne hδ0 (Ne.symm hδz)
      have hbrg : atan2 (forward lat0 lon0 lat lon).1
          (forward lat0 lon0 lat lon).2 = bearing lat0 lon0 lat lon := by
        show Complex.arg ⟨(forward lat0 lon0 lat lon).2,
          (forward lat0 lon0 lat lon).1⟩ = bearing lat0 lon0 lat lon
        rw [hx, hy]
        refine arg_mk_cos_sin _ _ (mul_pos hR hδpos) ⟨?_, ?_⟩
        · exact Complex.neg_pi_lt_arg _
        · exact Complex.arg_le_pi _
      rw [hbrg]
      exact hprod.1
  have hss : Real.sin (centralAngle lat0 lon0 lat lon) *
      Real.sin (atan2 (forward lat0 lon0 lat lon).1
        (forward lat0 lon0 lat lon).2) = bearingSin lat0 lon0 lat lon := by
    by_cases hδz : centralAngle lat0 lon0 lat lon = 0
    · have hs0 : Real.sin (centralAngle lat0 lon0 lat lon) = 0 := by
        rw [hδz, Real.sin_zero]
      have hab : bearingSin lat0 lon0 lat lon ^ 2 +
          bearingCos lat0 lon0 lat lon ^ 2 = 0 := by
        have := sin_centralAngle lat0 lon0 lat lon
        rw [hs0] at this
        have hnn : 0 ≤ bearingSin lat0 lon0 lat lon ^ 2 +
            bearingCos lat0 lon0 lat lon ^ 2 := by positivity
        nlinarith [Real.sq_sqrt hnn]
      have ha : bearingSin lat0 lon0 lat lon = 0 := by
        nlinarith [sq_nonneg (bearingSin lat0 lon0 lat lon),
          sq_nonneg (bearingCos lat0 lon0 lat lon)]
      rw [hs0, ha]
      ring
    · have hδpos : 0 < centralAngle lat0 lon0 lat lon :=
        lt_of_le_of_ne hδ0 (Ne.symm hδz)
      have hbrg : atan2 (forward lat0 lon0 lat lon).1
          (forward lat0 lon0 lat lon).2 = bearing lat0 lon0 lat lon := by
        show Complex.arg ⟨(forward lat0 lon0 lat lon).2,
          (forward lat0 lon0 lat lon).1⟩ = bearing lat0 lon0 lat lon
        rw [hx, hy]
        refine arg_mk_cos_sin _ _ (mul_pos hR hδpos) ⟨?_, ?_⟩
        · exact Complex.neg_pi_lt_arg _
        · exact Complex.arg_le_pi _
      rw [hbrg]
      exact hprod.2
  -- the recovered latitude
  have hlat : invLat lat0 (forward lat0 lon0 lat lon).1
      (forward lat0 lon0 lat lon).2 = lat := by
    unfold invLat invDist
    rw [hdist, cos_centralAngle, mul_assoc, hsc, sin_lat_identity]
    exact Real.arcsin_sin (le_of_lt (abs_lt.mp h1).1) (le_of_lt (abs_lt.mp h1).2)
  -- the recovered longitude
  have hlon : invLon lat0 lon0 (forward lat0 lon0 lat lon).1
      (forward lat0 lon0 lat lon).2 = lon := by
    unfold invLon invDist
    rw [hlat, hdist, cos_centralAngle]
    have hnum : Real.sin (atan2 (forward lat0 lon0 lat lon).1
          (forward lat0 lon0 lat lon).2) *
        Real.sin (centralAngle lat0 lon0 lat lon) * Real.cos lat0 =
        Real.cos lat0 * Real.cos lat * Real.sin (lon - lon0) := by
      rw [mul_comm (Real.sin (atan2 (forward lat0 lon0 lat lon).1
        (forward lat0 lon0 lat lon).2)) (Real.sin
          (centralAngle lat0 lon0 lat lon)), hss]
      unfold bearingSin
      ring
    have hden : cosAngle lat0 lon0 lat lon -
        Real.sin lat0 * Real.sin lat =
        Real.cos lat0 * Real.cos lat * Real.cos (lon - lon0) := by
      unfold cosAngle
      ring
    rw [hnum, hden]
    have harg : atan2 (Real.cos lat0 * Real.cos lat * Real.sin (lon - lon0))
        (Real.cos lat0 * Real.cos lat * Real.cos (lon - lon0)) =
        lon - lon0 := by
      show Complex.arg ⟨Real.cos lat0 * Real.cos lat * Real.cos (lon - lon0),
        Real.cos lat0 * Real.cos lat * Real.sin (lon - lon0)⟩ = lon - lon0
      exact arg_mk_cos_sin _ _ (mul_pos hc0 hc1) hd
    rw [harg]
    ring
  unfold inverse
  rw [hlat, hlon]

lemma rad2deg_deg2rad (x : ℝ) : rad2deg (deg2rad x) = x := by
  unfold rad2deg deg2rad
  have hπ := Real.pi_ne_zero
  field_simp

/-- C9: spec-modelled projector property — the forward mapping sends the
origin exactly to (0, 0); and for any target point with latitudes strictly
inside the poles and longitude difference within a half turn (in particular
any point within a few kilometers of a tile-scale origin),
inverse(forward(lat, lon)) recovers (lat, lon) exactly, hence within any
positive angular tolerance such as 1e-9 degrees. -/
theorem c9_projector_roundtrip (lat0 lon0 lat lon : ℝ)
    (h0 : |lat0| < 90) (h1 : |lat| < 90)
    (hlo : -180 < lon - lon0) (hhi : lon - lon0 ≤ 180) :
    forwardDeg lat0 lon0 lat0 lon0 = (0, 0) ∧
    inverseDeg lat0 lon0 (forwardDeg lat0 lon0 lat lon).1
      (forwardDeg lat0 lon0 lat lon).2 = (lat, lon) := by
  have hπ := Real.pi_pos
  constructor
  · unfold forwardDeg
    exact forward_origin _ _
  · have e0 : |deg2rad lat0| < Real.pi / 2 := by
      unfold deg2rad
      rw [abs_mul, abs_of_pos (show (0:ℝ) < Real.pi / 180 by positivity)]
      nlinarith [mul_pos (show (0:ℝ) < 90 - |lat0| by linarith) hπ]
    have e1 : |deg2rad lat| < Real.pi / 2 := by
      unfold deg2rad
      rw [abs_mul, abs_of_pos (show (0:ℝ) < Real.pi / 180 by positivity)]
      nlinarith [mul_pos (show (0:ℝ) < 90 - |lat| by linarith) hπ]
    have eΔ : deg2rad lon - deg2rad lon0 ∈ Set.Ioc (-Real.pi) Real.pi := by
      unfold deg2rad
      constructor
      · nlinarith [mul_pos (show (0:ℝ) < lon - lon0 + 180 by linarith) hπ]
      · nlinarith [mul_nonneg
          (show (0:ℝ) ≤ 180 - (lon - lon0) by linarith) hπ.le]
    have hr := inverse_forward (deg2rad lat0) (deg2rad lon0) (deg2rad lat)
      (deg2rad lon) e0 e1 eΔ
    unfold inverseDeg forwardDeg
    rw [hr]
    show (rad2deg (deg2rad lat), rad2deg (deg2rad lon)) = (lat, lon)
    rw [rad2deg_deg2rad, rad2deg_deg2rad]

/-- C9 witness: origin (0, 0), target (0.01, 0.01) degrees, about 1.5 km
from the origin. -/
theorem c9_projector_roundtrip_witness :
    |(0:ℝ)| < 90 ∧ |(1/100 : ℝ)| < 90 ∧
    -180 < (1/100 : ℝ) - 0 ∧ (1/100 : ℝ) - 0 ≤ 180 ∧
    (forwardDeg 0 0 0 0 = (0, 0) ∧
     inverseDeg 0 0 (forwardDeg 0 0 (1/100) (1/100)).1
       (forwardDeg 0 0 (1/100) (1/100)).2 = (1/100, 1/100)) :=
  ⟨by norm_num, by rw [abs_of_pos] <;> norm_num, by norm_num, by norm_num,
   c9_projector_roundtrip 0 0 (1/100) (1/100) (by norm_num)
     (by rw [abs_of_pos] <;> norm_num) (by norm_num) (by norm_num)⟩

end Heightmap

